import Mathlib

/-!
Verification of the `TypeManager` type registry (blockly-plugins, typed
lexical variables): a shallow embedding of the registry's data model and
operations, with theorems settling the specification's claims about the
type-compatibility predicate, the single-pass scan, and JSON
export/import of the registry state.
-/

namespace BlocklyTypes

/-- The hard-coded numeric-type set of `areTypesCompatible`
(`const numericTypes = ['number', 'int', 'float', 'double']`). -/
def numericTypes : List String := ["number", "int", "float", "double"]

/-- JavaScript `s.endsWith(suffix)`, on the character sequences of the
two strings. -/
def strEndsWith (s sfx : String) : Bool := List.isSuffixOf sfx.data s.data

/-- JavaScript `s.slice(0, -n)` for `0 < n ≤ s.length`: drop the last `n`
characters. -/
def strDropRight (s : String) (n : Nat) : String :=
  String.mk (s.data.take (s.data.length - n))

/-- Fuel-driven body of `areTypesCompatible`. Every recursive call strips a
non-empty suffix from `targetType`, so fuel `targetType.length + 1` always
suffices (`areTypesCompatibleGo_congr` below); the fuel only makes the
recursion structural. -/
def areTypesCompatibleGo : Nat → String → String → Bool
  | 0, _, _ => false
  | fuel+1, targetType, sourceType =>
    -- Handle 'any' type
    if targetType = "any" ∨ sourceType = "any" then true
    -- Handle exact matches
    else if targetType = sourceType then true
    -- Handle numeric types
    else if targetType ∈ numericTypes ∧ sourceType ∈ numericTypes then true
    -- Handle array types
    else if strEndsWith targetType "[]" ∧ strEndsWith sourceType "[]" then
      areTypesCompatibleGo fuel (strDropRight targetType 2) (strDropRight sourceType 2)
    -- Handle pointer types (for C)
    else if strEndsWith targetType "*" ∧ strEndsWith sourceType "*" then
      areTypesCompatibleGo fuel (strDropRight targetType 1) (strDropRight sourceType 1)
    else false

/-- `TypeManager.areTypesCompatible(targetType, sourceType)`. -/
def areTypesCompatible (targetType sourceType : String) : Bool :=
  areTypesCompatibleGo (targetType.data.length + 1) targetType sourceType

theorem strEndsWith_length {s sfx : String} (h : strEndsWith s sfx = true) :
    sfx.data.length ≤ s.data.length := by
  have := (List.isSuffixOf_iff_suffix).mp h
  exact this.length_le

theorem strDropRight_length (s : String) (n : Nat) :
    (strDropRight s n).data.length = s.data.length - n := by
  simp [strDropRight]

theorem areTypesCompatibleGo_congr :
    ∀ f g t s, t.data.length < f → t.data.length < g →
      areTypesCompatibleGo f t s = areTypesCompatibleGo g t s := by
  intro f
  induction f with
  | zero => intro g t s hf; omega
  | succ f ih =>
    intro g t s hf hg
    match g, hg with
    | g+1, hg =>
      show areTypesCompatibleGo (f+1) t s = areTypesCompatibleGo (g+1) t s
      rw [areTypesCompatibleGo, areTypesCompatibleGo]
      split
      · rfl
      · split
        · rfl
        · split
          · rfl
          · split
            · next h4 =>
              have h2 : 2 ≤ t.data.length := by
                have := strEndsWith_length h4.1
                simpa using this
              apply ih
              · rw [strDropRight_length]; omega
              · rw [strDropRight_length]; omega
            · split
              · next _ h5 =>
                have h1 : 1 ≤ t.data.length := by
                  have := strEndsWith_length h5.1
                  simpa using this
                apply ih
                · rw [strDropRight_length]; omega
                · rw [strDropRight_length]; omega
              · rfl

/-- One-step unfolding of `areTypesCompatible`, matching the source's
rule order exactly. -/
theorem areTypesCompatible_def (t s : String) :
    areTypesCompatible t s =
      (if t = "any" ∨ s = "any" then true
       else if t = s then true
       else if t ∈ numericTypes ∧ s ∈ numericTypes then true
       else if strEndsWith t "[]" ∧ strEndsWith s "[]" then
         areTypesCompatible (strDropRight t 2) (strDropRight s 2)
       else if strEndsWith t "*" ∧ strEndsWith s "*" then
         areTypesCompatible (strDropRight t 1) (strDropRight s 1)
       else false) := by
  rw [areTypesCompatible, areTypesCompatibleGo]
  split
  · rfl
  · split
    · rfl
    · split
      · rfl
      · split
        · next h4 =>
          have h2 : 2 ≤ t.data.length := by
            have := strEndsWith_length h4.1
            simpa using this
          apply areTypesCompatibleGo_congr
          · rw [strDropRight_length]; omega
          · rw [strDropRight_length]; omega
        · split
          · next _ h5 =>
            have h1 : 1 ≤ t.data.length := by
              have := strEndsWith_length h5.1
              simpa using this
            apply areTypesCompatibleGo_congr
            · rw [strDropRight_length]; omega
            · rw [strDropRight_length]; omega
          · rfl

/-- Modelled from the spec: the reference compatibility predicate, written
from the spec's six ordered rules (first match wins): (1) either operand is
the wildcard "any"; (2) the operands are textually identical; (3) both are
members of the fixed numeric set; (4) both end with the array suffix "[]",
recurse on the stripped bases; (5) both end with the pointer suffix "*",
recurse on the stripped bases; (6) otherwise incompatible. -/
def specTypesCompatible (target source : String) : Bool :=
  if target = "any" ∨ source = "any" then true
  else if target = source then true
  else if target ∈ (["number", "int", "float", "double"] : List String) ∧
          source ∈ (["number", "int", "float", "double"] : List String) then true
  else if h4 : strEndsWith target "[]" ∧ strEndsWith source "[]" then
    specTypesCompatible (strDropRight target 2) (strDropRight source 2)
  else if h5 : strEndsWith target "*" ∧ strEndsWith source "*" then
    specTypesCompatible (strDropRight target 1) (strDropRight source 1)
  else false
termination_by target.data.length
decreasing_by
  · have h2 : 2 ≤ target.data.length := by
      have := strEndsWith_length h4.1
      simpa using this
    rw [strDropRight_length]; omega
  · have h1 : 1 ≤ target.data.length := by
      have := strEndsWith_length h5.1
      simpa using this
    rw [strDropRight_length]; omega

/-- C1: `areTypesCompatible(target, source)` equals the reference
definition given by the spec's six ordered rules (first match wins), for
every pair of type strings. -/
theorem areTypesCompatible_eq_specRules :
    ∀ target source : String, areTypesCompatible target source = specTypesCompatible target source := by
  have main : ∀ n t s, t.data.length ≤ n → areTypesCompatible t s = specTypesCompatible t s := by
    intro n
    induction n with
    | zero =>
      intro t s hle
      rw [areTypesCompatible_def, specTypesCompatible]
      simp only [numericTypes]
      by_cases h1 : t = "any" ∨ s = "any"
      · rw [if_pos h1, if_pos h1]
      · rw [if_neg h1, if_neg h1]
        by_cases h2 : t = s
        · rw [if_pos h2, if_pos h2]
        · rw [if_neg h2, if_neg h2]
          by_cases h3 : t ∈ (["number", "int", "float", "double"] : List String) ∧
              s ∈ (["number", "int", "float", "double"] : List String)
          · rw [if_pos h3, if_pos h3]
          · rw [if_neg h3, if_neg h3]
            by_cases h4 : strEndsWith t "[]" = true ∧ strEndsWith s "[]" = true
            · exfalso
              have h2t : 2 ≤ t.data.length := by simpa using strEndsWith_length h4.1
              omega
            · rw [if_neg h4, dif_neg h4]
              by_cases h5 : strEndsWith t "*" = true ∧ strEndsWith s "*" = true
              · exfalso
                have h1t : 1 ≤ t.data.length := by simpa using strEndsWith_length h5.1
                omega
              · rw [if_neg h5, dif_neg h5]
    | succ n ih =>
      intro t s hle
      rw [areTypesCompatible_def, specTypesCompatible]
      simp only [numericTypes]
      by_cases h1 : t = "any" ∨ s = "any"
      · rw [if_pos h1, if_pos h1]
      · rw [if_neg h1, if_neg h1]
        by_cases h2 : t = s
        · rw [if_pos h2, if_pos h2]
        · rw [if_neg h2, if_neg h2]
          by_cases h3 : t ∈ (["number", "int", "float", "double"] : List String) ∧
              s ∈ (["number", "int", "float", "double"] : List String)
          · rw [if_pos h3, if_pos h3]
          · rw [if_neg h3, if_neg h3]
            by_cases h4 : strEndsWith t "[]" = true ∧ strEndsWith s "[]" = true
            · rw [if_pos h4, dif_pos h4]
              have h2t : 2 ≤ t.data.length := by
                have := strEndsWith_length h4.1
                simpa using this
              apply ih
              rw [strDropRight_length]; omega
            · rw [if_neg h4, dif_neg h4]
              by_cases h5 : strEndsWith t "*" = true ∧ strEndsWith s "*" = true
              · rw [if_pos h5, dif_pos h5]
                have h1t : 1 ≤ t.data.length := by
                  have := strEndsWith_length h5.1
                  simpa using this
                apply ih
                rw [strDropRight_length]; omega
              · rw [if_neg h5, dif_neg h5]
  intro t s
  exact main t.data.length t s le_rfl

/-- C5: `areTypesCompatible` is symmetric — no rule distinguishes the
target direction from the source direction. -/
theorem areTypesCompatible_symm :
    ∀ a b : String, areTypesCompatible a b = areTypesCompatible b a := by
  have main : ∀ n, ∀ a b : String, a.data.length + b.data.length = n →
      areTypesCompatible a b = areTypesCompatible b a := by
    intro n
    induction n using Nat.strong_induction_on with
    | _ n ih =>
      intro a b hn
      rw [areTypesCompatible_def a b, areTypesCompatible_def b a]
      by_cases h1 : a = "any" ∨ b = "any"
      · rw [if_pos h1, if_pos (Or.symm h1)]
      · rw [if_neg h1, if_neg (fun h : b = "any" ∨ a = "any" => h1 (Or.symm h))]
        by_cases h2 : a = b
        · rw [if_pos h2, if_pos (show b = a from h2.symm)]
        · rw [if_neg h2, if_neg (fun h : b = a => h2 h.symm)]
          by_cases h3 : a ∈ numericTypes ∧ b ∈ numericTypes
          · rw [if_pos h3,
              if_pos (show b ∈ numericTypes ∧ a ∈ numericTypes from ⟨h3.2, h3.1⟩)]
          · rw [if_neg h3,
              if_neg (fun h : b ∈ numericTypes ∧ a ∈ numericTypes => h3 ⟨h.2, h.1⟩)]
            by_cases h4 : strEndsWith a "[]" = true ∧ strEndsWith b "[]" = true
            · rw [if_pos h4,
                if_pos (show strEndsWith b "[]" = true ∧ strEndsWith a "[]" = true from
                  ⟨h4.2, h4.1⟩)]
              have ha2 : 2 ≤ a.data.length := by simpa using strEndsWith_length h4.1
              have hb2 : 2 ≤ b.data.length := by simpa using strEndsWith_length h4.2
              apply ih ((strDropRight a 2).data.length + (strDropRight b 2).data.length)
              · rw [strDropRight_length, strDropRight_length]; omega
              · rfl
            · rw [if_neg h4,
                if_neg (fun h : strEndsWith b "[]" = true ∧ strEndsWith a "[]" = true =>
                  h4 ⟨h.2, h.1⟩)]
              by_cases h5 : strEndsWith a "*" = true ∧ strEndsWith b "*" = true
              · rw [if_pos h5,
                  if_pos (show strEndsWith b "*" = true ∧ strEndsWith a "*" = true from
                    ⟨h5.2, h5.1⟩)]
                have ha1 : 1 ≤ a.data.length := by simpa using strEndsWith_length h5.1
                have hb1 : 1 ≤ b.data.length := by simpa using strEndsWith_length h5.2
                apply ih ((strDropRight a 1).data.length + (strDropRight b 1).data.length)
                · rw [strDropRight_length, strDropRight_length]; omega
                · rfl
              · rw [if_neg h5,
                  if_neg (fun h : strEndsWith b "*" = true ∧ strEndsWith a "*" = true =>
                    h5 ⟨h.2, h.1⟩)]
  intro a b
  exact main (a.data.length + b.data.length) a b rfl

/-- C6: the wildcard "any" is universally compatible on either side, and
compatibility is reflexive. -/
theorem areTypesCompatible_any_refl :
    ∀ T : String, areTypesCompatible "any" T = true ∧
      areTypesCompatible T "any" = true ∧ areTypesCompatible T T = true := by
  intro T
  refine ⟨?_, ?_, ?_⟩
  · rw [areTypesCompatible_def]
    rw [if_pos (Or.inl rfl)]
  · rw [areTypesCompatible_def]
    rw [if_pos (Or.inr rfl)]
  · rw [areTypesCompatible_def]
    by_cases h : T = "any"
    · rw [if_pos (Or.inl h)]
    · rw [if_neg (fun hc => by cases hc <;> exact h (by assumption))]
      rw [if_pos rfl]

/-!
JSON values. JavaScript objects reaching the registry's serialization
layer are modelled as finite JSON trees (`Json`); arrays and objects use a
mutually inductive representation so that all functions over them are
structurally recursive and evaluable. Numeric literals: integer literals
are modelled exactly (`num`); any other numeric literal (fraction or
exponent form, which JavaScript reads as an IEEE double) is kept verbatim
as `numDec` so that the model's parser accepts every input
`JSON.parse` accepts — no theorem below observes a non-integral numeric
value.
-/

mutual
inductive Json where
  | null
  | bool (b : Bool)
  | num (n : Int)
  | numDec (lit : List Char)
  | str (s : String)
  | arr (elems : JsonArr)
  | obj (fields : JsonObj)
deriving DecidableEq
inductive JsonArr where
  | nil
  | cons (hd : Json) (tl : JsonArr)
deriving DecidableEq
inductive JsonObj where
  | nil
  | cons (key : String) (val : Json) (tl : JsonObj)
deriving DecidableEq
end

/-- Convert a `JsonObj` chain to a list of key/value pairs. -/
def JsonObj.toList : JsonObj → List (String × Json)
  | .nil => []
  | .cons k v tl => (k, v) :: tl.toList

/-- Convert a list of key/value pairs to a `JsonObj` chain. -/
def JsonObj.ofList : List (String × Json) → JsonObj
  | [] => .nil
  | (k, v) :: tl => .cons k v (JsonObj.ofList tl)

/-- Convert a `JsonArr` chain to a list. -/
def JsonArr.toList : JsonArr → List Json
  | .nil => []
  | .cons x tl => x :: tl.toList

/-- Convert a list to a `JsonArr` chain. -/
def JsonArr.ofList : List Json → JsonArr
  | [] => .nil
  | x :: tl => .cons x (JsonArr.ofList tl)

/-!
The registry's data model. A JavaScript `Map` with string keys is an
insertion-ordered association list with unique keys: `set` on an existing
key updates the value in place, otherwise it appends.
-/

/-- `Map.prototype.set`: update in place if the key exists, else append. -/
def mapSet {α : Type} : List (String × α) → String → α → List (String × α)
  | [], k, v => [(k, v)]
  | (k', v') :: rest, k, v =>
    if k' = k then (k, v) :: rest else (k', v') :: mapSet rest k v

/-- `Map.prototype.get` (first — and in a real `Map`, only — match). -/
def mapGet {α : Type} : List (String × α) → String → Option α
  | [], _ => none
  | (k', v) :: rest, k => if k' = k then some v else mapGet rest k

/-- `Map.prototype.has`. -/
def mapHas {α : Type} (m : List (String × α)) (k : String) : Bool :=
  (mapGet m k).isSome

/-- `new Map(entries)`: fold `set` over the supplied entries (so a later
duplicate key wins while keeping the first occurrence's position). -/
def newMap {α : Type} (l : List (String × α)) : List (String × α) :=
  l.foldl (fun m p => mapSet m p.1 p.2) []

/-- The record stored in the variable map by `registerVariable`:
`{type, scope, declared: true}`. -/
structure VarInfo where
  type : String
  scope : String
  declared : Bool
deriving DecidableEq

/-- A block descriptor, per the external-interface contract: a `kind`
discriminant (`block.type`), named string fields (the scan reads `NAME`,
`VAR` and `TYPE` via `getFieldValue`), and the type reported by the
block's `getVariableType()` method. A field missing from a descriptor is
modelled as the empty string; the interface contract guarantees the
fields the scan reads are present on the kinds that use them. -/
structure Block where
  type : String
  fields : List (String × String)
  varType : String
deriving DecidableEq

/-- `block.getFieldValue(name)`. -/
def Block.getFieldValue (b : Block) (f : String) : String :=
  ((b.fields.lookup f).getD "")

/-- An entry of the `typeErrors` list: `{block, message, severity}`. -/
structure Diagnostic where
  block : Block
  message : String
  severity : String
deriving DecidableEq

/-- The mutable state of a `TypeManager`: the variable map, the
block-metadata map and the diagnostics list. -/
structure TMState where
  variableTypes : List (String × VarInfo)
  blockTypes : List (String × Json)
  typeErrors : List Diagnostic
deriving DecidableEq

/-- The state of a freshly constructed `TypeManager`. -/
def TMState.initial : TMState := ⟨[], [], []⟩

/-- `registerVariable(variableName, type, scope = 'local')`. -/
def registerVariable (st : TMState) (variableName : String) (type : String)
    (scope : String := "local") : TMState :=
  { st with variableTypes :=
      mapSet st.variableTypes variableName ⟨type, scope, true⟩ }

/-- `getVariableType(variableName)`: the registered type, or null. -/
def getVariableType (st : TMState) (variableName : String) : Option String :=
  match mapGet st.variableTypes variableName with
  | some varInfo => some varInfo.type
  | none => none

/-- `isVariableDeclared(variableName)`. -/
def isVariableDeclared (st : TMState) (variableName : String) : Bool :=
  mapHas st.variableTypes variableName

/-- `registerBlockType(blockId, typeInfo)`. -/
def registerBlockType (st : TMState) (blockId : String) (typeInfo : Json) : TMState :=
  { st with blockTypes := mapSet st.blockTypes blockId typeInfo }

/-- `getBlockType(blockId)`: the stored metadata, or null. -/
def getBlockType (st : TMState) (blockId : String) : Option Json :=
  mapGet st.blockTypes blockId

/-- `getVariableTypeSummary()`: a name-to-record snapshot of the variable
map. -/
def getVariableTypeSummary (st : TMState) : List (String × VarInfo) :=
  st.variableTypes

/-- `getTypeErrors()`. -/
def getTypeErrors (st : TMState) : List Diagnostic := st.typeErrors

/-- `clearTypeErrors()`. -/
def clearTypeErrors (st : TMState) : TMState := { st with typeErrors := [] }

/-- `reset()`. -/
def TMState.reset (_ : TMState) : TMState := ⟨[], [], []⟩

/-!
The scan. `checkTypeErrors()` resets the diagnostics list and runs
`checkBlockTypeErrors` over the supplied flat block list in order.
-/

/-- First `if` statement of `checkBlockTypeErrors`: check typed variable
getters. The condition `actualType && !areTypesCompatible(...)` demands a
truthy (non-null, non-empty) registered type and a failed compatibility
test. -/
def checkGetter (st : TMState) (block : Block) : TMState :=
  if block.type = "typed_lexical_variable_get" then
    let varName := block.getFieldValue "VAR"
    let expectedType := block.varType
    match getVariableType st varName with
    | some actualType =>
      if actualType ≠ "" ∧ areTypesCompatible expectedType actualType = false then
        { st with typeErrors := st.typeErrors ++
            [⟨block,
              "Type mismatch: expected " ++ expectedType ++ ", got " ++
                actualType ++ " for variable " ++ varName,
              "error"⟩] }
      else st
    | none => st
  else st

/-- Second `if` statement of `checkBlockTypeErrors`: check typed variable
setters (note the swapped argument order of the compatibility test). -/
def checkSetter (st : TMState) (block : Block) : TMState :=
  if block.type = "typed_lexical_variable_set" then
    let varName := block.getFieldValue "VAR"
    let expectedType := block.varType
    match getVariableType st varName with
    | some actualType =>
      if actualType ≠ "" ∧ areTypesCompatible actualType expectedType = false then
        { st with typeErrors := st.typeErrors ++
            [⟨block,
              "Type mismatch: cannot assign " ++ expectedType ++
                " to variable " ++ varName ++ " of type " ++ actualType,
              "error"⟩] }
      else st
    | none => st
  else st

/-- Third `if` statement of `checkBlockTypeErrors`: check typed variable
declarations (duplicate detection, else registration). -/
def checkDeclaration (st : TMState) (block : Block) : TMState :=
  if block.type = "typed_global_declaration" ∨
      block.type = "typed_local_declaration_statement" then
    let varName := block.getFieldValue
      (if block.type = "typed_global_declaration" then "NAME" else "VAR")
    let declaredType := block.getFieldValue "TYPE"
    if isVariableDeclared st varName then
      { st with typeErrors := st.typeErrors ++
          [⟨block, "Variable " ++ varName ++ " is already declared", "error"⟩] }
    else
      registerVariable st varName declaredType
        (if block.type = "typed_global_declaration" then "global" else "local")
  else st

/-- `checkBlockTypeErrors(block)`: the source's three sequential `if`
statements run in order on the same mutable state. -/
def checkBlockTypeErrors (st : TMState) (block : Block) : TMState :=
  checkDeclaration (checkSetter (checkGetter st block) block) block

/-- `checkTypeErrors()`: reset the diagnostics list, then scan the
supplied flat list of block descriptors in order. -/
def checkTypeErrors (st : TMState) (blocks : List Block) : TMState :=
  List.foldl checkBlockTypeErrors { st with typeErrors := [] } blocks

/-- A diagnostic message [mentions] a phrase when the phrase occurs as a
contiguous substring. -/
def mentionsStr (needle hay : String) : Prop := needle.data <:+: hay.data

instance (needle hay : String) : Decidable (mentionsStr needle hay) :=
  List.decidableInfix needle.data hay.data

/-- A block whose kind tag is one of the two declaration kinds. -/
def Block.isDeclaration (b : Block) : Prop :=
  b.type = "typed_global_declaration" ∨ b.type = "typed_local_declaration_statement"

instance (b : Block) : Decidable b.isDeclaration := by
  unfold Block.isDeclaration; infer_instance

/-- The name a declaration block declares (`NAME` on a global declaration,
`VAR` on a local one). -/
def Block.declaredName (b : Block) : String :=
  b.getFieldValue (if b.type = "typed_global_declaration" then "NAME" else "VAR")

theorem mentionsStr_already (n : String) :
    mentionsStr "already declared" ("Variable " ++ n ++ " is already declared") := by
  have h1 : "already declared".data <:+: " is already declared".data :=
    ⟨" is ".data, [], rfl⟩
  have h2 : " is already declared".data <:+
      ("Variable " ++ n ++ " is already declared").data := by
    refine ⟨"Variable ".data ++ n.data, ?_⟩
    simp [String.data_append]
  exact h1.trans h2.isInfix

/-- A declaration block descriptor with the given name and declared type
(global when the flag is set, local otherwise). -/
def mkDecl (global : Bool) (name tp : String) : Block :=
  ⟨if global then "typed_global_declaration" else "typed_local_declaration_statement",
   [((if global then "NAME" else "VAR"), name), ("TYPE", tp)], ""⟩

theorem checkGetter_not_get (st : TMState) (b : Block)
    (h : b.type ≠ "typed_lexical_variable_get") : checkGetter st b = st := by
  rw [checkGetter, if_neg h]

theorem checkSetter_not_set (st : TMState) (b : Block)
    (h : b.type ≠ "typed_lexical_variable_set") : checkSetter st b = st := by
  rw [checkSetter, if_neg h]

theorem checkDeclaration_not_decl (st : TMState) (b : Block)
    (h : ¬ b.isDeclaration) : checkDeclaration st b = st := by
  rw [checkDeclaration]
  exact if_neg h

theorem checkBlockTypeErrors_decl_declared (st : TMState) (b : Block)
    (hd : b.isDeclaration) (hdecl : isVariableDeclared st b.declaredName = true) :
    checkBlockTypeErrors st b =
      { st with typeErrors := st.typeErrors ++
          [⟨b, "Variable " ++ b.declaredName ++ " is already declared", "error"⟩] } := by
  have hne1 : b.type ≠ "typed_lexical_variable_get" := by
    rcases hd with h | h <;> rw [h] <;> decide
  have hne2 : b.type ≠ "typed_lexical_variable_set" := by
    rcases hd with h | h <;> rw [h] <;> decide
  have hd' : b.type = "typed_global_declaration" ∨
      b.type = "typed_local_declaration_statement" := hd
  rw [checkBlockTypeErrors, checkGetter_not_get _ _ hne1, checkSetter_not_set _ _ hne2,
    checkDeclaration, if_pos hd']
  rw [Block.declaredName] at hdecl ⊢
  simp [hdecl]

/-- C2: when a declaration block declares a name that is already declared,
the scan emits an error-severity diagnostic mentioning "already declared"
and leaves the variable map unchanged; scanning a list with two
declarations of the same name keeps the first declaration's type. -/
theorem scan_duplicate_declaration :
    (∀ (st : TMState) (b : Block), b.isDeclaration →
      isVariableDeclared st b.declaredName = true →
      (checkBlockTypeErrors st b).variableTypes = st.variableTypes ∧
      ∃ d : Diagnostic, (checkBlockTypeErrors st b).typeErrors = st.typeErrors ++ [d] ∧
        d.severity = "error" ∧ mentionsStr "already declared" d.message) ∧
    (∀ (g1 g2 : Bool) (n t1 t2 : String),
      getVariableType
          (checkTypeErrors TMState.initial [mkDecl g1 n t1, mkDecl g2 n t2]) n = some t1 ∧
      ∃ d ∈ (checkTypeErrors TMState.initial [mkDecl g1 n t1, mkDecl g2 n t2]).typeErrors,
        mentionsStr "already declared" d.message) := by
  constructor
  · intro st b hd hdecl
    rw [checkBlockTypeErrors_decl_declared st b hd hdecl]
    exact ⟨rfl, ⟨b, "Variable " ++ b.declaredName ++ " is already declared", "error"⟩,
      rfl, rfl, mentionsStr_already b.declaredName⟩
  · intro g1 g2 n t1 t2
    cases g1 <;> cases g2 <;>
      · constructor
        · simp [checkTypeErrors, checkBlockTypeErrors, checkGetter, checkSetter,
            checkDeclaration, mkDecl, Block.getFieldValue, TMState.initial,
            isVariableDeclared, mapHas, mapGet, mapSet, registerVariable,
            getVariableType, List.lookup]
        · simp [checkTypeErrors, checkBlockTypeErrors, checkGetter, checkSetter,
            checkDeclaration, mkDecl, Block.getFieldValue, TMState.initial,
            isVariableDeclared, mapHas, mapGet, mapSet, registerVariable,
            getVariableType, List.lookup]
          exact mentionsStr_already n

/-- C3: scanning a local declaration `counter : number` followed by a
setter assigning a `string` to `counter` yields a diagnostic mentioning
"Type mismatch"; with a setter assigning an `int` instead, no diagnostic
mentions "Type mismatch". -/
theorem scan_setter_type_mismatch :
    (∃ d ∈ (checkTypeErrors TMState.initial
        [⟨"typed_local_declaration_statement", [("VAR", "counter"), ("TYPE", "number")], ""⟩,
         ⟨"typed_lexical_variable_set", [("VAR", "counter")], "string"⟩]).typeErrors,
        mentionsStr "Type mismatch" d.message) ∧
    (∀ d ∈ (checkTypeErrors TMState.initial
        [⟨"typed_local_declaration_statement", [("VAR", "counter"), ("TYPE", "number")], ""⟩,
         ⟨"typed_lexical_variable_set", [("VAR", "counter")], "int"⟩]).typeErrors,
        ¬ mentionsStr "Type mismatch" d.message) := by
  decide

theorem mapGet_mapSet_ne {α : Type} (m : List (String × α)) (k n : String) (v : α)
    (h : k ≠ n) : mapGet (mapSet m k v) n = mapGet m n := by
  induction m with
  | nil => simp [mapSet, mapGet, h]
  | cons p rest ih =>
    obtain ⟨k', v'⟩ := p
    by_cases hk : k' = k
    · subst hk
      simp [mapSet, mapGet, h]
    · simp only [mapSet, if_neg hk]
      by_cases hn : k' = n
      · simp [mapGet, hn]
      · simp [mapGet, hn, ih]

theorem getVariableType_eq_none_of_undeclared (st : TMState) (N : String)
    (h : isVariableDeclared st N = false) : getVariableType st N = none := by
  rw [isVariableDeclared, mapHas] at h
  rw [getVariableType]
  cases hm : mapGet st.variableTypes N with
  | none => rfl
  | some vi => rw [hm] at h; simp at h

theorem checkBlockTypeErrors_getset_undeclared (st : TMState) (b : Block)
    (hb : b.type = "typed_lexical_variable_get" ∨ b.type = "typed_lexical_variable_set")
    (hund : isVariableDeclared st (b.getFieldValue "VAR") = false) :
    checkBlockTypeErrors st b = st := by
  have hget := getVariableType_eq_none_of_undeclared st _ hund
  rcases hb with h | h
  · have h2 : b.type ≠ "typed_lexical_variable_set" := by rw [h]; decide
    have h3 : ¬ b.isDeclaration := by rw [Block.isDeclaration, h]; decide
    rw [checkBlockTypeErrors, checkDeclaration_not_decl _ _ h3,
      checkSetter_not_set _ _ h2, checkGetter, if_pos h]
    simp [hget]
  · have h1 : b.type ≠ "typed_lexical_variable_get" := by rw [h]; decide
    have h3 : ¬ b.isDeclaration := by rw [Block.isDeclaration, h]; decide
    rw [checkBlockTypeErrors, checkDeclaration_not_decl _ _ h3,
      checkGetter_not_get _ _ h1, checkSetter, if_pos h]
    simp [hget]

theorem checkGetter_variableTypes (st : TMState) (b : Block) :
    (checkGetter st b).variableTypes = st.variableTypes := by
  rw [checkGetter]
  split
  · dsimp only
    split
    · split <;> rfl
    · rfl
  · rfl

theorem checkSetter_variableTypes (st : TMState) (b : Block) :
    (checkSetter st b).variableTypes = st.variableTypes := by
  rw [checkSetter]
  split
  · dsimp only
    split
    · split <;> rfl
    · rfl
  · rfl

theorem checkDeclaration_variableTypes (st : TMState) (b : Block) :
    (checkDeclaration st b).variableTypes = st.variableTypes ∨
    (b.isDeclaration ∧
      (checkDeclaration st b).variableTypes =
        mapSet st.variableTypes b.declaredName
          ⟨b.getFieldValue "TYPE",
           if b.type = "typed_global_declaration" then "global" else "local", true⟩) := by
  rw [checkDeclaration, Block.declaredName]
  by_cases hd : b.type = "typed_global_declaration" ∨
      b.type = "typed_local_declaration_statement"
  · rw [if_pos hd]
    by_cases hdecl : isVariableDeclared st
        (b.getFieldValue
          (if b.type = "typed_global_declaration" then "NAME" else "VAR")) = true
    · left
      rw [if_pos hdecl]
    · right
      refine ⟨hd, ?_⟩
      rw [if_neg hdecl, registerVariable]
  · rw [if_neg hd]
    left
    rfl

theorem checkBlockTypeErrors_preserves_undeclared (st : TMState) (b : Block) (N : String)
    (hund : isVariableDeclared st N = false)
    (hnd : ¬ (b.isDeclaration ∧ b.declaredName = N)) :
    isVariableDeclared (checkBlockTypeErrors st b) N = false := by
  rw [isVariableDeclared, mapHas] at hund ⊢
  rw [checkBlockTypeErrors]
  rcases checkDeclaration_variableTypes (checkSetter (checkGetter st b) b) b with h | ⟨hd, h⟩
  · rw [h, checkSetter_variableTypes, checkGetter_variableTypes]
    exact hund
  · have hne : b.declaredName ≠ N := fun he => hnd ⟨hd, he⟩
    rw [h, mapGet_mapSet_ne _ _ _ _ hne, checkSetter_variableTypes,
      checkGetter_variableTypes]
    exact hund

theorem scan_preserves_undeclared (L : List Block) (st : TMState) (N : String)
    (hund : isVariableDeclared st N = false)
    (hnd : ∀ p ∈ L, ¬ (p.isDeclaration ∧ p.declaredName = N)) :
    isVariableDeclared (List.foldl checkBlockTypeErrors st L) N = false := by
  induction L generalizing st with
  | nil => simpa using hund
  | cons b L ih =>
    rw [List.foldl_cons]
    exact ih _ (checkBlockTypeErrors_preserves_undeclared st b N hund
      (hnd b (List.mem_cons_self b L))) (fun p hp => hnd p (List.mem_cons_of_mem b hp))

/-- C4: the scan is single-pass and order-sensitive — a read or write
block referencing a name that no earlier block in the list declares (and
that is not already registered) produces no diagnostic: processing it
leaves the scan state unchanged. -/
theorem scan_forward_reference_skipped (st0 : TMState) (pre : List Block) (b : Block)
    (N : String)
    (hN : isVariableDeclared st0 N = false)
    (hpre : ∀ p ∈ pre, ¬ (p.isDeclaration ∧ p.declaredName = N))
    (hb : b.type = "typed_lexical_variable_get" ∨ b.type = "typed_lexical_variable_set")
    (hbn : b.getFieldValue "VAR" = N) :
    checkBlockTypeErrors (checkTypeErrors st0 pre) b = checkTypeErrors st0 pre := by
  have h0 : isVariableDeclared { st0 with typeErrors := ([] : List Diagnostic) } N = false := hN
  have hscan : isVariableDeclared (checkTypeErrors st0 pre) N = false := by
    rw [checkTypeErrors]
    exact scan_preserves_undeclared pre _ N h0 hpre
  apply checkBlockTypeErrors_getset_undeclared _ _ hb
  rw [hbn]
  exact hscan

/-!
Serialization. `exportTypeInfo` is `JSON.stringify` of the three stores
(the `null, 2` indentation argument only inserts insignificant
whitespace, which the parser skips, so the printer is modelled without
it); `importTypeInfo` is `JSON.parse` inside a `try`/`catch` whose
`catch` only logs.
-/

/-- Left brace character (spelled via its code point). -/
def lbrace : Char := Char.ofNat 123

/-- Right brace character (spelled via its code point). -/
def rbrace : Char := Char.ofNat 125

/-- The character for a digit value below ten, or a lowercase hex digit
for values ten to fifteen. -/
def digitChar (n : Nat) : Char :=
  Char.ofNat (if n < 10 then 48 + n else 87 + n)

/-- Decimal digit characters of a natural number, fuel-driven accumulator
form (the value shrinks by a factor of ten per step, so fuel `n + 1`
always suffices; see `natDigitsGo_congr`). -/
def natDigitsGo : Nat → Nat → List Char → List Char
  | 0, _, acc => acc
  | fuel+1, n, acc =>
    if n < 10 then digitChar n :: acc
    else natDigitsGo fuel (n / 10) (digitChar (n % 10) :: acc)

/-- Decimal digit characters of a natural number. -/
def natDigits (n : Nat) : List Char := natDigitsGo (n + 1) n []

/-- The decimal literal of an integer. -/
def printInt (n : Int) : List Char :=
  if n < 0 then '-' :: natDigits n.natAbs else natDigits n.toNat

/-- JSON escape of one string character: quote and backslash get a
backslash escape, control characters a `\u00XX` escape, everything else
is emitted verbatim. -/
def escapeChar (c : Char) : List Char :=
  if c = '"' then ['\\', '"']
  else if c = '\\' then ['\\', '\\']
  else if c.toNat < 32 then
    ['\\', 'u', '0', '0', digitChar (c.toNat / 16), digitChar (c.toNat % 16)]
  else [c]

/-- JSON escape of a string body. -/
def escapeChars : List Char → List Char
  | [] => []
  | c :: cs => escapeChar c ++ escapeChars cs

/-- A JSON string literal. -/
def printStr (s : String) : List Char := '"' :: escapeChars s.data ++ ['"']

mutual
/-- Serialize a JSON value (compact form). -/
def printJson : Json → List Char
  | .null => "null".data
  | .bool true => "true".data
  | .bool false => "false".data
  | .num n => printInt n
  | .numDec lit => lit
  | .str s => printStr s
  | .arr l => '[' :: printArrItems l ++ [']']
  | .obj l => lbrace :: printObjItems l ++ [rbrace]
/-- Serialize array elements, comma-separated. -/
def printArrItems : JsonArr → List Char
  | .nil => []
  | .cons x .nil => printJson x
  | .cons x (.cons y tl) => printJson x ++ ',' :: printArrItems (.cons y tl)
/-- Serialize object members, comma-separated. -/
def printObjItems : JsonObj → List Char
  | .nil => []
  | .cons k v .nil => printStr k ++ ':' :: printJson v
  | .cons k v (.cons k2 v2 tl) =>
    printStr k ++ ':' :: printJson v ++ ',' :: printObjItems (.cons k2 v2 tl)
end

/-- JSON whitespace. -/
def isWsChar (c : Char) : Bool := c = ' ' ∨ c = '\t' ∨ c = '\n' ∨ c = '\r'

/-- Skip leading JSON whitespace. -/
def skipWs : List Char → List Char
  | [] => []
  | c :: cs => if isWsChar c then skipWs cs else c :: cs

/-- Decimal digit test. -/
def isDigitChar (c : Char) : Bool := 48 ≤ c.toNat ∧ c.toNat ≤ 57

/-- Value of a decimal digit character. -/
def digitVal (c : Char) : Nat := c.toNat - 48

/-- Value of a hex digit character (either case), if it is one. -/
def fromHexDigit (c : Char) : Option Nat :=
  if 48 ≤ c.toNat ∧ c.toNat ≤ 57 then some (c.toNat - 48)
  else if 97 ≤ c.toNat ∧ c.toNat ≤ 102 then some (c.toNat - 87)
  else if 65 ≤ c.toNat ∧ c.toNat ≤ 70 then some (c.toNat - 55)
  else none

/-- Read four hex digits (a `\uXXXX` escape body). -/
def readHex4 : List Char → Option (Nat × List Char)
  | h1 :: h2 :: h3 :: h4 :: cs =>
    match fromHexDigit h1, fromHexDigit h2, fromHexDigit h3, fromHexDigit h4 with
    | some a, some b, some c, some d => some ((((a * 16 + b) * 16 + c) * 16 + d), cs)
    | _, _, _, _ => none
  | _ => none

/-- Decode one JSON escape directive (the character after a backslash),
returning the denoted character and the rest of the input. A `\uXXXX`
escape naming an invalid scalar value falls back to the default
character — the one divergence from JavaScript's UTF-16 strings, which
can hold lone surrogates. -/
def parseEscapeChar : List Char → Option (Char × List Char)
  | [] => none
  | e :: cs =>
    if e = '"' then some ('"', cs)
    else if e = '\\' then some ('\\', cs)
    else if e = '/' then some ('/', cs)
    else if e = 'b' then some (Char.ofNat 8, cs)
    else if e = 'f' then some (Char.ofNat 12, cs)
    else if e = 'n' then some (Char.ofNat 10, cs)
    else if e = 'r' then some (Char.ofNat 13, cs)
    else if e = 't' then some (Char.ofNat 9, cs)
    else if e = 'u' then
      match readHex4 cs with
      | some (n, cs2) => some (Char.ofNat n, cs2)
      | none => none
    else none

/-- Fuel-driven parser for a JSON string body (after the opening quote),
returning the body's characters and the input after the closing quote.
Every step consumes at least one character, so fuel `input length + 1`
always suffices. -/
def parseStringChars : Nat → List Char → Option (List Char × List Char)
  | 0, _ => none
  | _, [] => none
  | fuel+1, c :: cs =>
    if c = '"' then some ([], cs)
    else if c = '\\' then
      match parseEscapeChar cs with
      | some (outc, cs2) =>
        (fun p => (outc :: p.1, p.2)) <$> parseStringChars fuel cs2
      | none => none
    else (fun p => (c :: p.1, p.2)) <$> parseStringChars fuel cs

/-- Collect a (possibly empty) run of decimal digits. -/
def collectDigits : List Char → List Char × List Char
  | [] => ([], [])
  | c :: cs =>
    if isDigitChar c then
      let p := collectDigits cs
      (c :: p.1, p.2)
    else ([], c :: cs)

/-- Numeric value of a run of decimal digits. -/
def digitsToNat (ds : List Char) : Nat :=
  ds.foldl (fun a c => a * 10 + digitVal c) 0

/-- Parse the integer-part digits of a JSON number (JSON forbids leading
zeros). -/
def parseIntDigits : List Char → Option (List Char × List Char)
  | [] => none
  | c :: cs =>
    if c = '0' then
      match cs with
      | d :: _ => if isDigitChar d then none else some (['0'], cs)
      | [] => some (['0'], [])
    else if isDigitChar c then
      let p := collectDigits cs
      some (c :: p.1, p.2)
    else none

/-- Parse an optional JSON fraction part (consumed characters, rest). -/
def parseFrac : List Char → Option (List Char × List Char)
  | [] => some (([] : List Char), [])
  | c :: cs =>
    if c = '.' then
      match collectDigits cs with
      | ([], _) => none
      | (ds, r) => some ('.' :: ds, r)
    else some (([] : List Char), c :: cs)

/-- Parse an optional JSON exponent part (consumed characters, rest). -/
def parseExp : List Char → Option (List Char × List Char)
  | c :: cs =>
    if c = 'e' ∨ c = 'E' then
      match cs with
      | s :: cs2 =>
        if s = '+' ∨ s = '-' then
          match collectDigits cs2 with
          | ([], _) => none
          | (ds, r) => some (c :: s :: ds, r)
        else
          match collectDigits cs with
          | ([], _) => none
          | (ds, r) => some (c :: ds, r)
      | [] => none
    else some (([] : List Char), c :: cs)
  | [] => some (([] : List Char), [])

/-- Body of the JSON number parser, after the optional minus sign: the
integer part, then an optional fraction and exponent. An integer literal
becomes `num`; a literal with a fraction or exponent part is kept
verbatim as `numDec`. -/
def parseNumberBody (neg : Bool) (cs : List Char) : Option (Json × List Char) :=
  match parseIntDigits cs with
  | none => none
  | some (ip, r1) =>
    match parseFrac r1 with
    | none => none
    | some (fp, r2) =>
      match parseExp r2 with
      | none => none
      | some (ep, r3) =>
        if fp = [] ∧ ep = [] then
          some (.num (if neg then -(digitsToNat ip : Int) else (digitsToNat ip : Int)), r3)
        else
          some (.numDec ((if neg then ['-'] else []) ++ ip ++ fp ++ ep), r3)

/-- Parse a JSON number: exactly JSON's number grammar. -/
def parseNumber : List Char → Option (Json × List Char)
  | [] => none
  | c :: r => if c = '-' then parseNumberBody true r else parseNumberBody false (c :: r)

/-- Expect a fixed literal character sequence, returning the rest. -/
def expectLit : List Char → List Char → Option (List Char)
  | [], cs => some cs
  | _ :: _, [] => none
  | p :: ps, c :: cs => if c = p then expectLit ps cs else none

mutual
/-- Fuel-driven JSON value parser. The fuel only makes the mutual
recursion structural; every recursive call follows at least one consumed
input character, so the generous fuel supplied by `jsonParse` never runs
out on an input the grammar accepts. -/
def parseValueF : Nat → List Char → Option (Json × List Char)
  | 0, _ => none
  | fuel+1, cs =>
    match skipWs cs with
    | [] => none
    | c :: cs1 =>
      if c = 'n' then
        match expectLit "ull".data cs1 with
        | some r => some (.null, r)
        | none => none
      else if c = 't' then
        match expectLit "rue".data cs1 with
        | some r => some (.bool true, r)
        | none => none
      else if c = 'f' then
        match expectLit "alse".data cs1 with
        | some r => some (.bool false, r)
        | none => none
      else if c = '"' then
        match parseStringChars (cs1.length + 1) cs1 with
        | some (body, r) => some (.str (String.mk body), r)
        | none => none
      else if c = '[' then
        match skipWs cs1 with
        | c2 :: r =>
          if c2 = ']' then some (.arr .nil, r)
          else
            match parseElemsF fuel (c2 :: r) with
            | some (elems, r2) => some (.arr elems, r2)
            | none => none
        | [] => none
      else if c = lbrace then
        match skipWs cs1 with
        | c2 :: r =>
          if c2 = rbrace then some (.obj .nil, r)
          else
            match parseMembersF fuel (c2 :: r) with
            | some (fields, r2) => some (.obj fields, r2)
            | none => none
        | [] => none
      else if c = '-' ∨ isDigitChar c then parseNumber (c :: cs1)
      else none
/-- Parse one or more comma-separated array elements up to the closing
bracket. -/
def parseElemsF : Nat → List Char → Option (JsonArr × List Char)
  | 0, _ => none
  | fuel+1, cs =>
    match parseValueF fuel cs with
    | none => none
    | some (v, r) =>
      match skipWs r with
      | c :: r2 =>
        if c = ',' then
          match parseElemsF fuel r2 with
          | some (tl, r3) => some (.cons v tl, r3)
          | none => none
        else if c = ']' then some (.cons v .nil, r2)
        else none
      | [] => none
/-- Parse one or more comma-separated object members up to the closing
brace. -/
def parseMembersF : Nat → List Char → Option (JsonObj × List Char)
  | 0, _ => none
  | fuel+1, cs =>
    match skipWs cs with
    | c :: cs1 =>
      if c = '"' then
        match parseStringChars (cs1.length + 1) cs1 with
        | some (key, r1) =>
          match skipWs r1 with
          | c2 :: r2 =>
            if c2 = ':' then
              match parseValueF fuel r2 with
              | none => none
              | some (v, r3) =>
                match skipWs r3 with
                | c3 :: r4 =>
                  if c3 = ',' then
                    match parseMembersF fuel r4 with
                    | some (tl, r5) => some (.cons (String.mk key) v tl, r5)
                    | none => none
                  else if c3 = rbrace then some (.cons (String.mk key) v .nil, r4)
                  else none
                | [] => none
            else none
          | [] => none
        | none => none
      else none
    | [] => none
end

/-- `JSON.parse`: parse a complete JSON document (allowing surrounding
whitespace); `none` models a thrown `SyntaxError`. -/
def jsonParse (s : String) : Option Json :=
  match parseValueF (2 * s.data.length + 2) s.data with
  | some (v, rest) => if skipWs rest = [] then some v else none
  | none => none

/-!
Round-trip lemmas: parsing the printer's output recovers the value.
-/

theorem fromHexDigit_digitChar : ∀ d < 16, fromHexDigit (digitChar d) = some d := by
  decide

theorem isDigitChar_digitChar : ∀ d < 10, isDigitChar (digitChar d) = true := by
  decide

theorem digitVal_digitChar : ∀ d < 10, digitVal (digitChar d) = d := by
  decide

theorem skipWs_not_ws {c : Char} (l : List Char) (h : isWsChar c = false) :
    skipWs (c :: l) = c :: l := by
  rw [skipWs, if_neg]
  simp [h]

theorem escapeChars_length (s : List Char) : s.length ≤ (escapeChars s).length := by
  induction s with
  | nil => simp [escapeChars]
  | cons c cs ih =>
    rw [escapeChars, escapeChar]
    split
    · simp only [List.length_append, List.length_cons]; omega
    · split
      · simp only [List.length_append, List.length_cons]; omega
      · split
        · simp only [List.length_append, List.length_cons]; omega
        · simp only [List.length_append, List.length_cons]; omega

theorem parseStringChars_escape (s : List Char) :
    ∀ fuel rest, s.length < fuel →
      parseStringChars fuel (escapeChars s ++ '"' :: rest) = some (s, rest) := by
  induction s with
  | nil =>
    intro fuel rest hf
    match fuel, hf with
    | f+1, _ => rfl
  | cons c cs ih =>
    intro fuel rest hf
    match fuel, hf with
    | f+1, hf =>
      have hcs : cs.length < f := by simpa using hf
      have hrec := ih f rest hcs
      by_cases h1 : c = '"'
      · subst h1
        show (fun p => (('"' : Char) :: p.1, p.2)) <$>
          parseStringChars f (escapeChars cs ++ '"' :: rest) = some ('"' :: cs, rest)
        rw [hrec]
        rfl
      · by_cases h2 : c = '\\'
        · subst h2
          show (fun p => (('\\' : Char) :: p.1, p.2)) <$>
            parseStringChars f (escapeChars cs ++ '"' :: rest) = some ('\\' :: cs, rest)
          rw [hrec]
          rfl
        · by_cases h3 : c.toNat < 32
          · have h16hi : c.toNat / 16 < 16 := by omega
            have h16lo : c.toNat % 16 < 16 := by omega
            rw [escapeChars, escapeChar, if_neg h1, if_neg h2, if_pos h3]
            show (match
                (match readHex4 ('0' :: '0' :: digitChar (c.toNat / 16) ::
                    digitChar (c.toNat % 16) :: (escapeChars cs ++ '"' :: rest)) with
                  | some (n, cs2) => some (Char.ofNat n, cs2)
                  | none => none) with
              | some (outc, cs2) =>
                (fun p => (outc :: p.1, p.2)) <$> parseStringChars f cs2
              | none => none) = some (c :: cs, rest)
            rw [readHex4]
            rw [show fromHexDigit '0' = some 0 from rfl,
              fromHexDigit_digitChar _ h16hi, fromHexDigit_digitChar _ h16lo]
            show (fun p => (Char.ofNat (((0 * 16 + 0) * 16 + c.toNat / 16) * 16 +
                c.toNat % 16) :: p.1, p.2)) <$>
              parseStringChars f (escapeChars cs ++ '"' :: rest) = some (c :: cs, rest)
            rw [hrec]
            have harith : ((0 * 16 + 0) * 16 + c.toNat / 16) * 16 + c.toNat % 16 = c.toNat := by
              omega
            rw [harith, Char.ofNat_toNat]
            rfl
          · rw [escapeChars, escapeChar, if_neg h1, if_neg h2, if_neg h3]
            show (if c = '"' then some (([] : List Char), escapeChars cs ++ '"' :: rest)
              else if c = '\\' then
                match parseEscapeChar (escapeChars cs ++ '"' :: rest) with
                | some (outc, cs2) =>
                  (fun p => (outc :: p.1, p.2)) <$> parseStringChars f cs2
                | none => none
              else (fun p => (c :: p.1, p.2)) <$>
                parseStringChars f (escapeChars cs ++ '"' :: rest)) = some (c :: cs, rest)
            rw [if_neg h1, if_neg h2, hrec]
            rfl

theorem natDigitsGo_congr :
    ∀ f g n acc, n < f → n < g → natDigitsGo f n acc = natDigitsGo g n acc := by
  intro f
  induction f with
  | zero => intro g n acc hf; omega
  | succ f ih =>
    intro g n acc hf hg
    match g, hg with
    | g+1, hg =>
      rw [natDigitsGo, natDigitsGo]
      by_cases h : n < 10
      · rw [if_pos h, if_pos h]
      · rw [if_neg h, if_neg h]
        have hd : n / 10 < n := Nat.div_lt_self (by omega) (by omega)
        exact ih g (n / 10) _ (by omega) (by omega)

theorem natDigitsGo_acc :
    ∀ f n acc, n < f → natDigitsGo f n acc = natDigitsGo f n [] ++ acc := by
  intro f
  induction f with
  | zero => intro n acc hf; omega
  | succ f ih =>
    intro n acc hf
    rw [natDigitsGo, natDigitsGo]
    by_cases h : n < 10
    · rw [if_pos h, if_pos h]; rfl
    · rw [if_neg h, if_neg h]
      have hd : n / 10 < n := Nat.div_lt_self (by omega) (by omega)
      rw [ih (n / 10) _ (by omega), ih (n / 10) [digitChar (n % 10)] (by omega)]
      simp

theorem natDigits_lt10 {n : Nat} (h : n < 10) : natDigits n = [digitChar n] := by
  rw [natDigits, natDigitsGo, if_pos h]

theorem natDigits_ge10 {n : Nat} (h : 10 ≤ n) :
    natDigits n = natDigits (n / 10) ++ [digitChar (n % 10)] := by
  have hd : n / 10 < n := Nat.div_lt_self (by omega) (by omega)
  rw [natDigits, natDigitsGo, if_neg (by omega : ¬ n < 10)]
  rw [natDigitsGo_acc n (n / 10) _ (by omega)]
  rw [natDigits, natDigitsGo_congr n (n / 10 + 1) (n / 10) [] (by omega) (by omega)]

theorem natDigits_facts : ∀ n : Nat,
    (∀ c ∈ natDigits n, isDigitChar c = true) ∧ digitsToNat (natDigits n) = n := by
  intro n
  induction n using Nat.strong_induction_on with
  | _ n ih =>
    by_cases h : n < 10
    · rw [natDigits_lt10 h]
      refine ⟨?_, ?_⟩
      · intro c hc
        simp only [List.mem_singleton] at hc
        subst hc
        exact isDigitChar_digitChar n h
      · show digitsToNat [digitChar n] = n
        show 0 * 10 + digitVal (digitChar n) = n
        rw [digitVal_digitChar n h]
        omega
    · rw [natDigits_ge10 (by omega)]
      obtain ⟨ihd, ihv⟩ := ih (n / 10) (Nat.div_lt_self (by omega) (by omega))
      constructor
      · intro c hc
        rcases List.mem_append.mp hc with hc | hc
        · exact ihd c hc
        · simp only [List.mem_singleton] at hc
          subst hc
          exact isDigitChar_digitChar _ (by omega)
      · rw [digitsToNat, List.foldl_append]
        show List.foldl (fun a c => a * 10 + digitVal c) 0 (natDigits (n / 10)) * 10 +
          digitVal (digitChar (n % 10)) = n
        rw [show List.foldl (fun a c => a * 10 + digitVal c) 0 (natDigits (n / 10)) =
          digitsToNat (natDigits (n / 10)) from rfl]
        rw [ihv, digitVal_digitChar _ (by omega)]
        omega

theorem natDigits_head_ne_zero : ∀ n : Nat, n ≠ 0 →
    ∃ d ds, natDigits n = d :: ds ∧ d ≠ '0' := by
  intro n
  induction n using Nat.strong_induction_on with
  | _ n ih =>
    intro hn
    by_cases h : n < 10
    · refine ⟨digitChar n, [], natDigits_lt10 h, ?_⟩
      have hne : ∀ m, m < 10 → m ≠ 0 → digitChar m ≠ '0' := by decide
      exact hne n h hn
    · obtain ⟨d, ds, heq, hd⟩ :=
        ih (n / 10) (Nat.div_lt_self (by omega) (by omega)) (by omega)
      refine ⟨d, ds ++ [digitChar (n % 10)], ?_, hd⟩
      rw [natDigits_ge10 (by omega), heq]
      rfl

theorem natDigits_cons : ∀ n : Nat,
    ∃ d ds, natDigits n = d :: ds ∧ isDigitChar d = true := by
  intro n
  by_cases h0 : n = 0
  · subst h0
    exact ⟨'0', [], rfl, by decide⟩
  · obtain ⟨d, ds, heq, _⟩ := natDigits_head_ne_zero n h0
    refine ⟨d, ds, heq, ?_⟩
    exact (natDigits_facts n).1 d (by rw [heq]; simp)

/-- The continuation after a printed number must not begin with a
character that could extend the numeric literal. -/
def restOkNum : List Char → Prop
  | [] => True
  | c :: _ => isDigitChar c = false ∧ c ≠ '.' ∧ c ≠ 'e' ∧ c ≠ 'E'

theorem collectDigits_append (ds rest : List Char)
    (hds : ∀ c ∈ ds, isDigitChar c = true) (hrest : restOkNum rest) :
    collectDigits (ds ++ rest) = (ds, rest) := by
  induction ds with
  | nil =>
    simp only [List.nil_append]
    cases rest with
    | nil => rfl
    | cons c cs =>
      have hc : isDigitChar c = false := hrest.1
      rw [collectDigits, if_neg (by simp [hc])]
  | cons d ds ih =>
    rw [List.cons_append, collectDigits,
      if_pos (by simp [hds d (List.mem_cons_self d ds)])]
    rw [ih (fun c hc => hds c (List.mem_cons_of_mem d hc))]

theorem parseIntDigits_natDigits (n : Nat) (rest : List Char) (hrest : restOkNum rest) :
    parseIntDigits (natDigits n ++ rest) = some (natDigits n, rest) := by
  by_cases h0 : n = 0
  · subst h0
    show parseIntDigits ('0' :: rest) = some (['0'], rest)
    cases rest with
    | nil => rfl
    | cons c cs =>
      have hc : isDigitChar c = false := hrest.1
      show (if isDigitChar c = true then none else some (['0'], c :: cs)) =
        some (['0'], c :: cs)
      rw [if_neg (by simp [hc])]
  · obtain ⟨d, ds, heq, hd0⟩ := natDigits_head_ne_zero n h0
    have hdigits := (natDigits_facts n).1
    rw [heq]
    show parseIntDigits (d :: (ds ++ rest)) = some (d :: ds, rest)
    rw [parseIntDigits.eq_def]
    dsimp only
    rw [if_neg hd0,
      if_pos (hdigits d (by rw [heq]; simp)),
      collectDigits_append ds rest (fun c hc => hdigits c (by rw [heq]; simp [hc])) hrest]

theorem parseFrac_ok (rest : List Char) (h : restOkNum rest) :
    parseFrac rest = some ([], rest) := by
  cases rest with
  | nil => rfl
  | cons c cs =>
    rw [parseFrac, if_neg h.2.1]

theorem parseExp_ok (rest : List Char) (h : restOkNum rest) :
    parseExp rest = some ([], rest) := by
  cases rest with
  | nil => rfl
  | cons c cs =>
    rw [parseExp.eq_def]
    dsimp only
    rw [if_neg]
    rintro (he | hE)
    · exact h.2.2.1 he
    · exact h.2.2.2 hE

theorem isDigitChar_ne_minus {c : Char} (h : isDigitChar c = true) : c ≠ '-' := by
  intro he
  rw [he] at h
  exact absurd h (by decide)

theorem parseNumber_printInt (n : Int) (rest : List Char) (hrest : restOkNum rest) :
    parseNumber (printInt n ++ rest) = some (.num n, rest) := by
  rw [printInt]
  by_cases hneg : n < 0
  · rw [if_pos hneg]
    show parseNumber ('-' :: (natDigits n.natAbs ++ rest)) = some (.num n, rest)
    rw [parseNumber, if_pos rfl]
    simp only [parseNumberBody, parseIntDigits_natDigits n.natAbs rest hrest,
      parseFrac_ok rest hrest, parseExp_ok rest hrest, and_self, reduceIte,
      (natDigits_facts n.natAbs).2]
    have hval : -((n.natAbs : Nat) : Int) = n := by omega
    rw [hval]
  · rw [if_neg hneg]
    obtain ⟨d, ds, heq, hdig⟩ := natDigits_cons n.toNat
    rw [heq]
    show parseNumber (d :: (ds ++ rest)) = some (.num n, rest)
    rw [parseNumber, if_neg (isDigitChar_ne_minus hdig)]
    rw [show (d :: (ds ++ rest) : List Char) = natDigits n.toNat ++ rest from by
      rw [heq]; rfl]
    simp only [parseNumberBody, parseIntDigits_natDigits n.toNat rest hrest,
      parseFrac_ok rest hrest, parseExp_ok rest hrest, and_self, reduceIte,
      (natDigits_facts n.toNat).2]
    have hval : ((n.toNat : Nat) : Int) = n := by omega
    simp [hval]

/-!
Integral JSON values: those containing no `numDec` literal. Every value
the registry itself serializes is of this shape; `numDec` exists only so
the parser accepts every document `JSON.parse` accepts.
-/

mutual
inductive IntOnly : Json → Prop
  | null : IntOnly .null
  | bool (b : Bool) : IntOnly (.bool b)
  | num (n : Int) : IntOnly (.num n)
  | str (s : String) : IntOnly (.str s)
  | arr (l : JsonArr) (h : IntOnlyArr l) : IntOnly (.arr l)
  | obj (l : JsonObj) (h : IntOnlyObj l) : IntOnly (.obj l)
inductive IntOnlyArr : JsonArr → Prop
  | nil : IntOnlyArr .nil
  | cons (x : Json) (tl : JsonArr) (hx : IntOnly x) (htl : IntOnlyArr tl) :
      IntOnlyArr (.cons x tl)
inductive IntOnlyObj : JsonObj → Prop
  | nil : IntOnlyObj .nil
  | cons (k : String) (v : Json) (tl : JsonObj) (hv : IntOnly v) (htl : IntOnlyObj tl) :
      IntOnlyObj (.cons k v tl)
end

theorem isDigitChar_not_special {d : Char} (h : isDigitChar d = true) :
    isWsChar d = false ∧ d ≠ 'n' ∧ d ≠ 't' ∧ d ≠ 'f' ∧ d ≠ '"' ∧ d ≠ '[' ∧
      d ≠ lbrace ∧ d ≠ ']' := by
  refine ⟨?_, ?_, ?_, ?_, ?_, ?_, ?_, ?_⟩
  · cases hws : isWsChar d with
    | false => rfl
    | true =>
      exfalso
      simp only [isWsChar, decide_eq_true_eq] at hws
      rcases hws with he | he | he | he <;> rw [he] at h <;> exact absurd h (by decide)
  all_goals intro he; rw [he] at h; exact absurd h (by decide)

theorem String.mk_data (s : String) : String.mk s.data = s := by
  cases s
  rfl

/-- The first character of a printed (integral) JSON value: never
whitespace and never a closing bracket. -/
theorem printJson_head (v : Json) (hv : IntOnly v) :
    ∃ c t, printJson v = c :: t ∧ isWsChar c = false ∧ c ≠ ']' := by
  cases hv with
  | null => exact ⟨'n', _, rfl, by decide, by decide⟩
  | bool b =>
    cases b
    · exact ⟨'f', _, rfl, by decide, by decide⟩
    · exact ⟨'t', _, rfl, by decide, by decide⟩
  | num n =>
    by_cases hneg : n < 0
    · refine ⟨'-', natDigits n.natAbs, ?_, by decide, by decide⟩
      show printInt n = _
      rw [printInt, if_pos hneg]
    · obtain ⟨d, ds, heq, hdig⟩ := natDigits_cons n.toNat
      obtain ⟨hws, _, _, _, _, _, _, hrb⟩ := isDigitChar_not_special hdig
      refine ⟨d, ds, ?_, hws, hrb⟩
      show printInt n = _
      rw [printInt, if_neg hneg, heq]
  | str s => exact ⟨'"', _, rfl, by decide, by decide⟩
  | arr l => exact ⟨'[', _, rfl, by decide, by decide⟩
  | obj l => exact ⟨lbrace, _, rfl, by decide, by decide⟩

theorem printArrItems_head (x : Json) (tl : JsonArr) {c : Char} {t : List Char}
    (h : printJson x = c :: t) : ∃ t2, printArrItems (.cons x tl) = c :: t2 := by
  cases tl with
  | nil => exact ⟨t, by rw [printArrItems, h]⟩
  | cons y tl2 =>
    refine ⟨t ++ ',' :: printArrItems (.cons y tl2), ?_⟩
    rw [printArrItems, h]
    rfl

/-- The continuation after a printed value inside a document: empty, or a
separator/closer. -/
def sepRest : List Char → Prop
  | [] => True
  | c :: _ => c = ',' ∨ c = ']' ∨ c = rbrace

theorem sepRest_restOkNum : ∀ r, sepRest r → restOkNum r := by
  intro r h
  cases r with
  | nil => trivial
  | cons c cs =>
    rcases h with he | he | he <;> subst he <;>
      exact ⟨by decide, by decide, by decide, by decide⟩

theorem sepRest_skipWs : ∀ r, sepRest r → skipWs r = r := by
  intro r h
  cases r with
  | nil => rfl
  | cons c cs =>
    rcases h with he | he | he <;> subst he <;> exact skipWs_not_ws _ (by decide)

mutual
theorem parseValueF_print (v : Json) (hv : IntOnly v) :
    ∀ fuel rest, (printJson v).length < fuel → sepRest rest →
      parseValueF fuel (printJson v ++ rest) = some (v, rest) := by
  intro fuel rest hf hrest
  match fuel, hf with
  | f+1, hf =>
    cases hv with
    | null => rfl
    | bool b => cases b <;> rfl
    | str s =>
      have hlist : printJson (.str s) ++ rest =
          '"' :: (escapeChars s.data ++ '"' :: rest) := by
        rw [printJson, printStr]
        simp
      rw [hlist, parseValueF, skipWs_not_ws _ (by decide)]
      dsimp only
      rw [if_neg (by decide : ¬('"' : Char) = 'n'),
        if_neg (by decide : ¬('"' : Char) = 't'),
        if_neg (by decide : ¬('"' : Char) = 'f'),
        if_pos (rfl : ('"' : Char) = '"')]
      rw [parseStringChars_escape s.data _ rest (by
        simp only [List.length_append, List.length_cons]
        have := escapeChars_length s.data
        omega)]
    | num n =>
      by_cases hneg : n < 0
      · have hpr : printJson (.num n) = '-' :: natDigits n.natAbs := by
          rw [printJson, printInt, if_pos hneg]
        rw [hpr, List.cons_append, parseValueF, skipWs_not_ws _ (by decide)]
        dsimp only
        rw [if_neg (by decide : ¬('-' : Char) = 'n'),
          if_neg (by decide : ¬('-' : Char) = 't'),
          if_neg (by decide : ¬('-' : Char) = 'f'),
          if_neg (by decide : ¬('-' : Char) = '"'),
          if_neg (by decide : ¬('-' : Char) = '['),
          if_neg (by decide : ¬('-' : Char) = lbrace),
          if_pos (Or.inl rfl : ('-' : Char) = '-' ∨ isDigitChar '-' = true)]
        rw [show ('-' :: (natDigits n.natAbs ++ rest)) = printInt n ++ rest from by
          rw [printInt, if_pos hneg]; rfl]
        exact parseNumber_printInt n rest (sepRest_restOkNum rest hrest)
      · obtain ⟨d, ds, heq, hdig⟩ := natDigits_cons n.toNat
        obtain ⟨hws, hn1, hn2, hn3, hn4, hn5, hn6, _⟩ := isDigitChar_not_special hdig
        have hpr : printJson (.num n) = d :: ds := by
          rw [printJson, printInt, if_neg hneg, heq]
        rw [hpr, List.cons_append, parseValueF, skipWs_not_ws _ hws]
        dsimp only
        rw [if_neg hn1, if_neg hn2, if_neg hn3, if_neg hn4, if_neg hn5, if_neg hn6,
          if_pos (Or.inr hdig : d = '-' ∨ isDigitChar d = true)]
        rw [show (d :: (ds ++ rest)) = printInt n ++ rest from by
          rw [printInt, if_neg hneg, heq]; rfl]
        exact parseNumber_printInt n rest (sepRest_restOkNum rest hrest)
    | arr l h =>
      cases l with
      | nil => rfl
      | cons x tl =>
        cases h with
        | cons _ _ hx htl =>
          have hlist : printJson (.arr (.cons x tl)) ++ rest =
              '[' :: (printArrItems (.cons x tl) ++ ']' :: rest) := by
            rw [printJson]
            simp
          rw [hlist, parseValueF, skipWs_not_ws _ (by decide)]
          dsimp only
          rw [if_neg (by decide : ¬('[' : Char) = 'n'),
            if_neg (by decide : ¬('[' : Char) = 't'),
            if_neg (by decide : ¬('[' : Char) = 'f'),
            if_neg (by decide : ¬('[' : Char) = '"'),
            if_pos (rfl : ('[' : Char) = '[')]
          obtain ⟨c, t, hct, hcws, hcrb⟩ := printJson_head x hx
          obtain ⟨t2, ht2⟩ := printArrItems_head x tl hct
          rw [ht2, List.cons_append, skipWs_not_ws _ hcws]
          dsimp only
          rw [if_neg hcrb]
          rw [show (c :: (t2 ++ ']' :: rest)) =
            printArrItems (.cons x tl) ++ ']' :: rest from by rw [ht2]; rfl]
          have hlen : (printJson (.arr (.cons x tl))).length =
              (printArrItems (.cons x tl)).length + 2 := by
            rw [printJson]
            simp
          rw [parseElemsF_print (.cons x tl) (IntOnlyArr.cons x tl hx htl)
            (fun hc => JsonArr.noConfusion hc) f rest (by omega)]
    | obj l h =>
      cases l with
      | nil => rfl
      | cons k v tl =>
        cases h with
        | cons _ _ _ hv2 htl =>
          have hlist : printJson (.obj (.cons k v tl)) ++ rest =
              lbrace :: (printObjItems (.cons k v tl) ++ rbrace :: rest) := by
            rw [printJson]
            simp
          rw [hlist, parseValueF, skipWs_not_ws _ (by decide)]
          dsimp only
          rw [if_neg (by decide : ¬lbrace = 'n'),
            if_neg (by decide : ¬lbrace = 't'),
            if_neg (by decide : ¬lbrace = 'f'),
            if_neg (by decide : ¬lbrace = '"'),
            if_neg (by decide : ¬lbrace = '['),
            if_pos (rfl : lbrace = lbrace)]
          have hhead : ∃ t2, printObjItems (.cons k v tl) = '"' :: t2 := by
            cases tl with
            | nil => exact ⟨(escapeChars k.data ++ ['"']) ++ ':' :: printJson v, rfl⟩
            | cons k2 v2 tl2 =>
              exact ⟨(escapeChars k.data ++ ['"']) ++ ':' :: printJson v ++
                ',' :: printObjItems (.cons k2 v2 tl2), rfl⟩
          obtain ⟨t2, ht2⟩ := hhead
          rw [ht2, List.cons_append, skipWs_not_ws _ (by decide)]
          dsimp only
          rw [if_neg (by decide : ¬('"' : Char) = rbrace)]
          rw [show ('"' :: (t2 ++ rbrace :: rest)) =
            printObjItems (.cons k v tl) ++ rbrace :: rest from by rw [ht2]; rfl]
          have hlen : (printJson (.obj (.cons k v tl))).length =
              (printObjItems (.cons k v tl)).length + 2 := by
            rw [printJson]
            simp
          rw [parseMembersF_print (.cons k v tl) (IntOnlyObj.cons k v tl hv2 htl)
            (fun hc => JsonObj.noConfusion hc) f rest (by omega)]
theorem parseElemsF_print (l : JsonArr) (hl : IntOnlyArr l) (hne : l ≠ .nil) :
    ∀ fuel rest, (printArrItems l).length + 1 < fuel →
      parseElemsF fuel (printArrItems l ++ ']' :: rest) = some (l, rest) := by
  intro fuel rest hf
  match fuel, hf with
  | f+1, hf =>
    cases hl with
    | nil => exact absurd rfl hne
    | cons x tl hx htl =>
      rw [parseElemsF]
      cases tl with
      | nil =>
        rw [show printArrItems (JsonArr.cons x .nil) = printJson x from by
          rw [printArrItems]]
        rw [printArrItems] at hf
        rw [parseValueF_print x hx f (']' :: rest) (by omega) (Or.inr (Or.inl rfl))]
        dsimp only
        rw [skipWs_not_ws _ (by decide)]
        dsimp only
        rw [if_neg (by decide : ¬(']' : Char) = ','), if_pos (rfl : (']' : Char) = ']')]
      | cons y tl2 =>
        cases htl with
        | cons _ _ hy htl2 =>
          have hitems : printArrItems (.cons x (.cons y tl2)) ++ ']' :: rest =
              printJson x ++ (',' :: (printArrItems (.cons y tl2) ++ ']' :: rest)) := by
            rw [printArrItems]
            simp
          have hlen : (printArrItems (.cons x (.cons y tl2))).length =
              (printJson x).length + 1 + (printArrItems (.cons y tl2)).length := by
            rw [printArrItems]
            simp
            omega
          obtain ⟨c, t, hct, _, _⟩ := printJson_head x hx
          have hxpos : 1 ≤ (printJson x).length := by rw [hct]; simp
          rw [hitems]
          rw [parseValueF_print x hx f
            (',' :: (printArrItems (.cons y tl2) ++ ']' :: rest)) (by omega) (Or.inl rfl)]
          dsimp only
          rw [skipWs_not_ws _ (by decide)]
          dsimp only
          rw [if_pos (rfl : (',' : Char) = ',')]
          rw [parseElemsF_print (.cons y tl2) (IntOnlyArr.cons y tl2 hy htl2)
            (fun hc => JsonArr.noConfusion hc) f rest (by omega)]
theorem parseMembersF_print (l : JsonObj) (hl : IntOnlyObj l) (hne : l ≠ .nil) :
    ∀ fuel rest, (printObjItems l).length + 1 < fuel →
      parseMembersF fuel (printObjItems l ++ rbrace :: rest) = some (l, rest) := by
  intro fuel rest hf
  match fuel, hf with
  | f+1, hf =>
    cases hl with
    | nil => exact absurd rfl hne
    | cons k v tl hv htl =>
      rw [parseMembersF]
      cases tl with
      | nil =>
        have hobj : printObjItems (.cons k v (.nil)) ++ rbrace :: rest =
            '"' :: (escapeChars k.data ++ '"' ::
              (':' :: (printJson v ++ rbrace :: rest))) := by
          rw [printObjItems, printStr]
          simp
        have hlen : (printObjItems (JsonObj.cons k v .nil)).length =
            (printStr k).length + 1 + (printJson v).length := by
          rw [printObjItems]
          simp
          omega
        have hkpos : 2 ≤ (printStr k).length := by
          rw [printStr]
          simp
        rw [hobj, skipWs_not_ws _ (by decide)]
        dsimp only
        rw [if_pos (rfl : ('"' : Char) = '"')]
        rw [parseStringChars_escape k.data _ (':' :: (printJson v ++ rbrace :: rest)) (by
          simp only [List.length_append, List.length_cons]
          have := escapeChars_length k.data
          omega)]
        dsimp only
        rw [skipWs_not_ws _ (by decide)]
        dsimp only
        rw [if_pos (rfl : (':' : Char) = ':')]
        rw [parseValueF_print v hv f (rbrace :: rest) (by omega) (Or.inr (Or.inr rfl))]
        dsimp only
        rw [skipWs_not_ws _ (by decide)]
        dsimp only
        rw [if_neg (by decide : ¬rbrace = ','), if_pos (rfl : rbrace = rbrace)]
      | cons k2 v2 tl2 =>
        cases htl with
        | cons _ _ _ hv2 htl2 =>
          have hobj : printObjItems (.cons k v (.cons k2 v2 tl2)) ++ rbrace :: rest =
              '"' :: (escapeChars k.data ++ '"' ::
                (':' :: (printJson v ++
                  (',' :: (printObjItems (.cons k2 v2 tl2) ++ rbrace :: rest))))) := by
            rw [printObjItems, printStr]
            simp
          have hlen : (printObjItems (.cons k v (.cons k2 v2 tl2))).length =
              (printStr k).length + 1 + (printJson v).length + 1 +
                (printObjItems (.cons k2 v2 tl2)).length := by
            rw [printObjItems]
            simp
            omega
          have hkpos : 2 ≤ (printStr k).length := by
            rw [printStr]
            simp
          obtain ⟨c, t, hct, _, _⟩ := printJson_head v hv
          have hvpos : 1 ≤ (printJson v).length := by rw [hct]; simp
          rw [hobj, skipWs_not_ws _ (by decide)]
          dsimp only
          rw [if_pos (rfl : ('"' : Char) = '"')]
          rw [parseStringChars_escape k.data _
            (':' :: (printJson v ++
              (',' :: (printObjItems (.cons k2 v2 tl2) ++ rbrace :: rest)))) (by
            simp only [List.length_append, List.length_cons]
            have := escapeChars_length k.data
            omega)]
          dsimp only
          rw [skipWs_not_ws _ (by decide)]
          dsimp only
          rw [if_pos (rfl : (':' : Char) = ':')]
          rw [parseValueF_print v hv f
            (',' :: (printObjItems (.cons k2 v2 tl2) ++ rbrace :: rest))
            (by omega) (Or.inl rfl)]
          dsimp only
          rw [skipWs_not_ws _ (by decide)]
          dsimp only
          rw [if_pos (rfl : (',' : Char) = ',')]
          rw [parseMembersF_print (.cons k2 v2 tl2)
            (IntOnlyObj.cons k2 v2 tl2 hv2 htl2)
            (fun hc => JsonObj.noConfusion hc) f rest (by omega)]
end

/-- Parsing a printed integral JSON document recovers the value. -/
theorem jsonParse_print (v : Json) (hv : IntOnly v) :
    jsonParse (String.mk (printJson v)) = some v := by
  have h := parseValueF_print v hv (2 * (printJson v).length + 2) [] (by omega) trivial
  rw [List.append_nil] at h
  show (match parseValueF (2 * (printJson v).length + 2) (printJson v) with
    | some (v2, rest) => if skipWs rest = [] then some v2 else none
    | none => none) = some v
  rw [h]
  rfl

/-!
`exportTypeInfo` / `importTypeInfo`.
-/

/-- Encode the `{type, scope, declared}` record stored for a variable
(the object `JSON.stringify` serializes). -/
def encodeVarInfo (vi : VarInfo) : Json :=
  .obj (.cons "type" (.str vi.type) (.cons "scope" (.str vi.scope)
    (.cons "declared" (.bool vi.declared) .nil)))

/-- Encode a block descriptor's field map. -/
def encodeFields : List (String × String) → JsonObj
  | [] => .nil
  | (k, v) :: tl => .cons k (.str v) (encodeFields tl)

/-- Encode a block descriptor: its enumerable data per the
external-interface contract (kind tag, named fields, reported type). -/
def encodeBlock (b : Block) : Json :=
  .obj (.cons "type" (.str b.type)
    (.cons "fields" (.obj (encodeFields b.fields))
    (.cons "varType" (.str b.varType) .nil)))

/-- Encode a diagnostic `{block, message, severity}`. -/
def encodeDiagnostic (d : Diagnostic) : Json :=
  .obj (.cons "block" (encodeBlock d.block)
    (.cons "message" (.str d.message)
    (.cons "severity" (.str d.severity) .nil)))

/-- Encode the diagnostics list. -/
def encodeErrList : List Diagnostic → JsonArr
  | [] => .nil
  | d :: tl => .cons (encodeDiagnostic d) (encodeErrList tl)

/-- `Object.fromEntries(this.variableTypes)`. -/
def encodeVarEntries : List (String × VarInfo) → JsonObj
  | [] => .nil
  | (k, vi) :: tl => .cons k (encodeVarInfo vi) (encodeVarEntries tl)

/-- The document `JSON.stringify` receives in `exportTypeInfo`: the three
stores under the top-level fields `variableTypes`, `blockTypes` and
`typeErrors`. -/
def exportDoc (st : TMState) : Json :=
  .obj (.cons "variableTypes" (.obj (encodeVarEntries st.variableTypes))
    (.cons "blockTypes" (.obj (JsonObj.ofList st.blockTypes))
    (.cons "typeErrors" (.arr (encodeErrList st.typeErrors)) .nil)))

/-- `exportTypeInfo()`: `JSON.stringify` of the three stores. The
`null, 2` indentation argument only inserts insignificant whitespace and
is modelled away; source-block references in diagnostics are the
descriptor records of the external-interface contract, which serialize as
their enumerable data. -/
def exportTypeInfo (st : TMState) : String :=
  String.mk (printJson (exportDoc st))

/-- Property lookup in a JSON object (first match, as `JSON.parse`
builds objects whose duplicate keys were already collapsed). -/
def jsObjLookup : JsonObj → String → Option Json
  | .nil, _ => none
  | .cons k x tl, f => if k = f then some x else jsObjLookup tl f

/-- JavaScript property access `data.f` on a parsed JSON value: an own
property of an object, `undefined` (`none`) on anything else. -/
def jsGet : Json → String → Option Json
  | .obj l, f => jsObjLookup l f
  | _, _ => none

/-- JavaScript truthiness of a parsed JSON value. For a non-integral
numeric literal the model tests for a nonzero digit; an IEEE double that
underflows to zero (such as `1e-400`) is therefore modelled as truthy,
a divergence no theorem below touches. -/
def jsTruthy : Json → Bool
  | .null => false
  | .bool b => b
  | .num n => n != 0
  | .numDec lit => lit.any (fun c => isDigitChar c && c != '0')
  | .str s => s != ""
  | .arr _ => true
  | .obj _ => true

/-- `x || d` where `x` is a property access result (`none` models
`undefined`). -/
def jsOr (o : Option Json) (d : Json) : Json :=
  match o with
  | some v => if jsTruthy v then v else d
  | none => d

/-- Index-key entries of an array (`Object.entries` on an array value). -/
def enumArr (i : Nat) : JsonArr → List (String × Json)
  | .nil => []
  | .cons x tl => (String.mk (natDigits i), x) :: enumArr (i + 1) tl

/-- Index-key entries of a string (`Object.entries` on a string value). -/
def enumStr (i : Nat) : List Char → List (String × Json)
  | [] => []
  | c :: cs => (String.mk (natDigits i), .str (String.mk [c])) :: enumStr (i + 1) cs

/-- `Object.entries(x)`: an object's own enumerable entries; an array's
or string's index-value pairs; empty for any other value. -/
def jsEntries : Json → List (String × Json)
  | .obj l => l.toList
  | .arr l => enumArr 0 l
  | .str s => enumStr 0 s.data
  | _ => []

/-- The string a JSON value denotes, for the properties whose readers
consume a string; a non-string value (impossible in a document produced
by `exportTypeInfo`) is modelled as the empty string, which is falsy to
every reader exactly like the original value's absence. -/
def jsStr : Json → String
  | .str s => s
  | _ => ""

/-- String value of a property access result. -/
def jsStrOr (o : Option Json) : String :=
  match o with
  | some v => jsStr v
  | none => ""

/-- Truthiness of a property access result. -/
def jsTruthyOpt (o : Option Json) : Bool :=
  match o with
  | some v => jsTruthy v
  | none => false

/-- Read an imported variable record through the shape its readers
consume: `getVariableType` reads `.type`, `exportTypeInfo` re-serializes
`.type`/`.scope`/`.declared`; the source stores the raw parsed object,
whose consumed properties are exactly these three. -/
def decodeVarInfo (v : Json) : VarInfo :=
  { type := jsStrOr (jsGet v "type"),
    scope := jsStrOr (jsGet v "scope"),
    declared := jsTruthyOpt (jsGet v "declared") }

/-- Read an imported block reference back as a descriptor. -/
def decodeBlock (v : Json) : Block :=
  { type := jsStrOr (jsGet v "type"),
    fields := (jsEntries (jsOr (jsGet v "fields") (.obj .nil))).map
      (fun p => (p.1, jsStr p.2)),
    varType := jsStrOr (jsGet v "varType") }

/-- Read an imported diagnostic back as a record. -/
def decodeDiagnostic (v : Json) : Diagnostic :=
  { block := decodeBlock ((jsGet v "block").getD .null),
    message := jsStrOr (jsGet v "message"),
    severity := jsStrOr (jsGet v "severity") }

/-- Read an imported diagnostics array element-wise. -/
def decodeDiagArr : JsonArr → List Diagnostic
  | .nil => []
  | .cons x tl => decodeDiagnostic x :: decodeDiagArr tl

/-- `data.typeErrors || []` as its readers consume it; a truthy non-array
value (which the source would store raw and no reader inspects before the
next scan resets the list) is modelled as empty. -/
def decodeErrList : Json → List Diagnostic
  | .arr l => decodeDiagArr l
  | _ => []

/-- `importTypeInfo(jsonString)`: `JSON.parse` inside `try`. On a parse
error the `catch` only logs, so the state is unchanged; a parsed `null`
also leaves the state unchanged, because the first property access
`data.variableTypes` throws before any assignment completes. -/
def importTypeInfo (st : TMState) (jsonString : String) : TMState :=
  match jsonParse jsonString with
  | none => st
  | some data =>
    if data = .null then st
    else
      { variableTypes :=
          newMap ((jsEntries (jsOr (jsGet data "variableTypes") (.obj .nil))).map
            (fun p => (p.1, decodeVarInfo p.2)))
        blockTypes := newMap (jsEntries (jsOr (jsGet data "blockTypes") (.obj .nil)))
        typeErrors := decodeErrList (jsOr (jsGet data "typeErrors") (.arr .nil)) }

theorem intOnly_encodeVarInfo (vi : VarInfo) : IntOnly (encodeVarInfo vi) :=
  IntOnly.obj _ (IntOnlyObj.cons _ _ _ (IntOnly.str _)
    (IntOnlyObj.cons _ _ _ (IntOnly.str _)
    (IntOnlyObj.cons _ _ _ (IntOnly.bool _) IntOnlyObj.nil)))

theorem intOnlyObj_encodeFields (l : List (String × String)) :
    IntOnlyObj (encodeFields l) := by
  induction l with
  | nil => exact IntOnlyObj.nil
  | cons p tl ih =>
    obtain ⟨k, v⟩ := p
    exact IntOnlyObj.cons _ _ _ (IntOnly.str _) ih

theorem intOnly_encodeBlock (b : Block) : IntOnly (encodeBlock b) :=
  IntOnly.obj _ (IntOnlyObj.cons _ _ _ (IntOnly.str _)
    (IntOnlyObj.cons _ _ _ (IntOnly.obj _ (intOnlyObj_encodeFields b.fields))
    (IntOnlyObj.cons _ _ _ (IntOnly.str _) IntOnlyObj.nil)))

theorem intOnly_encodeDiagnostic (d : Diagnostic) : IntOnly (encodeDiagnostic d) :=
  IntOnly.obj _ (IntOnlyObj.cons _ _ _ (intOnly_encodeBlock d.block)
    (IntOnlyObj.cons _ _ _ (IntOnly.str _)
    (IntOnlyObj.cons _ _ _ (IntOnly.str _) IntOnlyObj.nil)))

theorem intOnlyArr_encodeErrList (l : List Diagnostic) :
    IntOnlyArr (encodeErrList l) := by
  induction l with
  | nil => exact IntOnlyArr.nil
  | cons d tl ih => exact IntOnlyArr.cons _ _ (intOnly_encodeDiagnostic d) ih

theorem intOnlyObj_encodeVarEntries (l : List (String × VarInfo)) :
    IntOnlyObj (encodeVarEntries l) := by
  induction l with
  | nil => exact IntOnlyObj.nil
  | cons p tl ih =>
    obtain ⟨k, vi⟩ := p
    exact IntOnlyObj.cons _ _ _ (intOnly_encodeVarInfo vi) ih

theorem intOnlyObj_ofList (l : List (String × Json)) (h : ∀ p ∈ l, IntOnly p.2) :
    IntOnlyObj (JsonObj.ofList l) := by
  induction l with
  | nil => exact IntOnlyObj.nil
  | cons p tl ih =>
    obtain ⟨k, v⟩ := p
    exact IntOnlyObj.cons _ _ _ (h (k, v) (List.mem_cons_self _ _))
      (ih (fun q hq => h q (List.mem_cons_of_mem _ hq)))

theorem intOnly_exportDoc (st : TMState) (h : ∀ p ∈ st.blockTypes, IntOnly p.2) :
    IntOnly (exportDoc st) :=
  IntOnly.obj _
    (IntOnlyObj.cons _ _ _ (IntOnly.obj _ (intOnlyObj_encodeVarEntries st.variableTypes))
    (IntOnlyObj.cons _ _ _ (IntOnly.obj _ (intOnlyObj_ofList st.blockTypes h))
    (IntOnlyObj.cons _ _ _ (IntOnly.arr _ (intOnlyArr_encodeErrList st.typeErrors))
      IntOnlyObj.nil)))

theorem mapHas_mapSet_ne {α : Type} (m : List (String × α)) (k n : String) (v : α)
    (h : k ≠ n) : mapHas (mapSet m k v) n = mapHas m n := by
  rw [mapHas, mapHas, mapGet_mapSet_ne _ _ _ _ h]

theorem mapSet_append {α : Type} (m : List (String × α)) (k : String) (v : α)
    (h : mapHas m k = false) : mapSet m k v = m ++ [(k, v)] := by
  induction m with
  | nil => rfl
  | cons p tl ih =>
    obtain ⟨k2, v2⟩ := p
    rw [mapSet]
    by_cases hk : k2 = k
    · subst hk
      rw [mapHas, mapGet, if_pos rfl] at h
      simp at h
    · rw [if_neg hk]
      rw [mapHas, mapGet, if_neg hk] at h
      rw [ih h]
      rfl

theorem foldl_mapSet_acc {α : Type} :
    ∀ (l acc : List (String × α)),
      (∀ k ∈ l.map Prod.fst, mapHas acc k = false) → (l.map Prod.fst).Nodup →
      List.foldl (fun m p => mapSet m p.1 p.2) acc l = acc ++ l := by
  intro l
  induction l with
  | nil =>
    intro acc _ _
    simp
  | cons p tl ih =>
    intro acc hdisj hnodup
    obtain ⟨k, v⟩ := p
    rw [List.map_cons, List.nodup_cons] at hnodup
    rw [List.foldl_cons]
    have hk : mapHas acc k = false := hdisj k (by simp)
    have htl : ∀ k2 ∈ tl.map Prod.fst, mapHas (mapSet acc k v) k2 = false := by
      intro k2 hk2
      have hne : k ≠ k2 := fun he => hnodup.1 (he ▸ hk2)
      rw [mapHas_mapSet_ne _ _ _ _ hne]
      exact hdisj k2 (by simp [hk2])
    dsimp only
    rw [ih (mapSet acc k v) htl hnodup.2, mapSet_append acc k v hk]
    simp

theorem newMap_eq_self {α : Type} (l : List (String × α))
    (h : (l.map Prod.fst).Nodup) : newMap l = l := by
  rw [newMap, foldl_mapSet_acc l [] (fun k _ => rfl) h]
  rfl

theorem toList_ofList : ∀ l : List (String × Json), (JsonObj.ofList l).toList = l := by
  intro l
  induction l with
  | nil => rfl
  | cons p tl ih =>
    obtain ⟨k, v⟩ := p
    rw [JsonObj.ofList, JsonObj.toList, ih]

theorem toList_encodeVarEntries : ∀ l : List (String × VarInfo),
    (encodeVarEntries l).toList = l.map (fun p => (p.1, encodeVarInfo p.2)) := by
  intro l
  induction l with
  | nil => rfl
  | cons p tl ih =>
    obtain ⟨k, vi⟩ := p
    rw [encodeVarEntries, JsonObj.toList, ih]
    rfl

theorem decodeVarInfo_encodeVarInfo (vi : VarInfo) :
    decodeVarInfo (encodeVarInfo vi) = vi := by
  cases vi
  rfl

theorem decode_encode_entries : ∀ l : List (String × VarInfo),
    (l.map (fun p => (p.1, encodeVarInfo p.2))).map
      (fun p => (p.1, decodeVarInfo p.2)) = l := by
  intro l
  induction l with
  | nil => rfl
  | cons p tl ih =>
    obtain ⟨k, vi⟩ := p
    simp only [List.map_cons, ih, decodeVarInfo_encodeVarInfo]

/-- C7: re-importing an exported registry state reproduces the
variable-type summary and the block-metadata map. The hypotheses are
invariants of every state the registry builds: `Map` keys are unique, and
the registry's own serializer writes only integral JSON. -/
theorem import_export_roundtrip (st : TMState)
    (hvk : (st.variableTypes.map Prod.fst).Nodup)
    (hbk : (st.blockTypes.map Prod.fst).Nodup)
    (hbv : ∀ p ∈ st.blockTypes, IntOnly p.2) :
    getVariableTypeSummary (importTypeInfo st (exportTypeInfo st)) =
      getVariableTypeSummary st ∧
    (importTypeInfo st (exportTypeInfo st)).blockTypes = st.blockTypes := by
  have hparse : jsonParse (exportTypeInfo st) = some (exportDoc st) :=
    jsonParse_print _ (intOnly_exportDoc st hbv)
  rw [importTypeInfo, hparse]
  dsimp only
  rw [if_neg (show ¬ exportDoc st = .null from by
    rw [exportDoc]; intro hcon; exact Json.noConfusion hcon)]
  rw [show jsGet (exportDoc st) "variableTypes" =
    some (.obj (encodeVarEntries st.variableTypes)) from by rw [exportDoc]; rfl]
  rw [show jsGet (exportDoc st) "blockTypes" =
    some (.obj (JsonObj.ofList st.blockTypes)) from by rw [exportDoc]; rfl]
  rw [show jsOr (some (.obj (encodeVarEntries st.variableTypes))) (.obj .nil) =
    .obj (encodeVarEntries st.variableTypes) from rfl]
  rw [show jsOr (some (.obj (JsonObj.ofList st.blockTypes))) (.obj .nil) =
    .obj (JsonObj.ofList st.blockTypes) from rfl]
  rw [show jsEntries (.obj (encodeVarEntries st.variableTypes)) =
    (encodeVarEntries st.variableTypes).toList from rfl]
  rw [show jsEntries (.obj (JsonObj.ofList st.blockTypes)) =
    (JsonObj.ofList st.blockTypes).toList from rfl]
  rw [toList_encodeVarEntries, toList_ofList, decode_encode_entries,
    newMap_eq_self _ hvk, newMap_eq_self _ hbk]
  exact ⟨rfl, rfl⟩

/-- C8: importing a well-formed document with absent top-level fields
sets each missing store to empty; in particular importing the document
consisting of an empty object empties all three stores. -/
theorem import_missing_fields_empty :
    (∀ (st : TMState) (s : String) (l : JsonObj), jsonParse s = some (.obj l) →
      (jsObjLookup l "variableTypes" = none →
        (importTypeInfo st s).variableTypes = []) ∧
      (jsObjLookup l "blockTypes" = none →
        (importTypeInfo st s).blockTypes = []) ∧
      (jsObjLookup l "typeErrors" = none →
        (importTypeInfo st s).typeErrors = [])) ∧
    (∀ st : TMState,
      importTypeInfo st (String.mk [lbrace, rbrace]) = ⟨[], [], []⟩) := by
  constructor
  · intro st s l hparse
    rw [importTypeInfo, hparse]
    dsimp only
    rw [if_neg (show ¬ (Json.obj l) = .null from fun hcon => Json.noConfusion hcon)]
    refine ⟨?_, ?_, ?_⟩
    · intro hmiss
      rw [show jsGet (Json.obj l) "variableTypes" = jsObjLookup l "variableTypes"
        from rfl, hmiss]
      rfl
    · intro hmiss
      rw [show jsGet (Json.obj l) "blockTypes" = jsObjLookup l "blockTypes"
        from rfl, hmiss]
      rfl
    · intro hmiss
      rw [show jsGet (Json.obj l) "typeErrors" = jsObjLookup l "typeErrors"
        from rfl, hmiss]
      rfl
  · intro st
    rfl

/-- C9: exporting succeeds for every registry state — including states
with a non-empty diagnostics list carrying source-block references — and
the produced string is a well-formed serialization of the export
document (so `JSON.parse` recovers it). Source-block references are the
descriptor records of the external-interface contract, so the document is
a finite tree; the hypothesis is the invariant that the stored block
metadata is integral JSON. -/
theorem export_always_serializes (st : TMState)
    (hbv : ∀ p ∈ st.blockTypes, IntOnly p.2) :
    jsonParse (exportTypeInfo st) = some (exportDoc st) :=
  jsonParse_print _ (intOnly_exportDoc st hbv)

/-- C10: an unparseable import is atomic — `JSON.parse` throws before any
assignment, the `catch` only logs, and the whole state is left exactly as
it was. -/
theorem import_unparseable_atomic (st : TMState) (s : String)
    (h : jsonParse s = none) : importTypeInfo st s = st := by
  rw [importTypeInfo, h]

/-- Witness for C2 at a concrete state and declaration block. -/
theorem scan_duplicate_declaration_witness :
    Block.isDeclaration (mkDecl true "x" "int") ∧
    isVariableDeclared
      (⟨[("x", ⟨"number", "global", true⟩)], [], []⟩ : TMState)
      (mkDecl true "x" "int").declaredName = true ∧
    ((checkBlockTypeErrors
        (⟨[("x", ⟨"number", "global", true⟩)], [], []⟩ : TMState)
        (mkDecl true "x" "int")).variableTypes =
      (⟨[("x", ⟨"number", "global", true⟩)], [], []⟩ : TMState).variableTypes ∧
      ∃ d : Diagnostic,
        (checkBlockTypeErrors
          (⟨[("x", ⟨"number", "global", true⟩)], [], []⟩ : TMState)
          (mkDecl true "x" "int")).typeErrors =
        (⟨[("x", ⟨"number", "global", true⟩)], [], []⟩ : TMState).typeErrors ++ [d] ∧
        d.severity = "error" ∧ mentionsStr "already declared" d.message) :=
  ⟨Or.inl rfl, by decide,
    scan_duplicate_declaration.1 _ _ (Or.inl rfl) (by decide)⟩

/-- Witness for C4 at a concrete getter block with an undeclared name. -/
theorem scan_forward_reference_skipped_witness :
    isVariableDeclared TMState.initial "y" = false ∧
    checkBlockTypeErrors (checkTypeErrors TMState.initial [])
      ⟨"typed_lexical_variable_get", [("VAR", "y")], "number"⟩ =
      checkTypeErrors TMState.initial [] :=
  ⟨by decide,
    scan_forward_reference_skipped TMState.initial []
      ⟨"typed_lexical_variable_get", [("VAR", "y")], "number"⟩ "y" (by decide)
      (fun p hp => absurd hp (List.not_mem_nil p)) (Or.inl rfl) rfl⟩

/-- Witness for C7 at a concrete one-variable, one-metadata state. -/
theorem import_export_roundtrip_witness :
    (((⟨[("x", ⟨"number", "global", true⟩)], [("b1", Json.num 3)], []⟩ :
        TMState).variableTypes.map Prod.fst).Nodup ∧
      ((⟨[("x", ⟨"number", "global", true⟩)], [("b1", Json.num 3)], []⟩ :
        TMState).blockTypes.map Prod.fst).Nodup ∧
      (∀ p ∈ (⟨[("x", ⟨"number", "global", true⟩)], [("b1", Json.num 3)], []⟩ :
        TMState).blockTypes, IntOnly p.2)) ∧
    (getVariableTypeSummary (importTypeInfo
        (⟨[("x", ⟨"number", "global", true⟩)], [("b1", Json.num 3)], []⟩ : TMState)
        (exportTypeInfo
          (⟨[("x", ⟨"number", "global", true⟩)], [("b1", Json.num 3)], []⟩ : TMState))) =
      getVariableTypeSummary
        (⟨[("x", ⟨"number", "global", true⟩)], [("b1", Json.num 3)], []⟩ : TMState) ∧
      (importTypeInfo
        (⟨[("x", ⟨"number", "global", true⟩)], [("b1", Json.num 3)], []⟩ : TMState)
        (exportTypeInfo
          (⟨[("x", ⟨"number", "global", true⟩)], [("b1", Json.num 3)], []⟩ :
            TMState))).blockTypes =
      (⟨[("x", ⟨"number", "global", true⟩)], [("b1", Json.num 3)], []⟩ :
        TMState).blockTypes) :=
  ⟨⟨by decide, by decide,
    fun p hp => by
      simp only [List.mem_singleton] at hp
      subst hp
      exact IntOnly.num 3⟩,
    import_export_roundtrip _ (by decide) (by decide)
      (fun p hp => by
        simp only [List.mem_singleton] at hp
        subst hp
        exact IntOnly.num 3)⟩

/-- Witness for C8: importing the empty-object document. -/
theorem import_missing_fields_empty_witness :
    jsonParse (String.mk [lbrace, rbrace]) = some (.obj .nil) ∧
    jsObjLookup .nil "variableTypes" = none ∧
    (importTypeInfo TMState.initial (String.mk [lbrace, rbrace])).variableTypes = [] :=
  ⟨by decide, rfl,
    (import_missing_fields_empty.1 TMState.initial (String.mk [lbrace, rbrace])
      .nil (by decide)).1 rfl⟩

/-- Witness for C9 at a state with a non-empty diagnostics list holding a
source-block reference. -/
theorem export_always_serializes_witness :
    (∀ p ∈ (⟨[], [],
        [⟨⟨"typed_lexical_variable_get", [("VAR", "y")], "number"⟩,
          "Type mismatch: expected number, got string for variable y",
          "error"⟩]⟩ : TMState).blockTypes, IntOnly p.2) ∧
    jsonParse (exportTypeInfo (⟨[], [],
        [⟨⟨"typed_lexical_variable_get", [("VAR", "y")], "number"⟩,
          "Type mismatch: expected number, got string for variable y",
          "error"⟩]⟩ : TMState)) =
      some (exportDoc (⟨[], [],
        [⟨⟨"typed_lexical_variable_get", [("VAR", "y")], "number"⟩,
          "Type mismatch: expected number, got string for variable y",
          "error"⟩]⟩ : TMState)) :=
  ⟨fun p hp => absurd hp (List.not_mem_nil p),
    export_always_serializes _ (fun p hp => absurd hp (List.not_mem_nil p))⟩

/-- Witness for C10 at a concrete unparseable input. -/
theorem import_unparseable_atomic_witness :
    jsonParse "not json" = none ∧
    importTypeInfo TMState.initial "not json" = TMState.initial :=
  ⟨by decide, import_unparseable_atomic TMState.initial "not json" (by decide)⟩

end BlocklyTypes
